import Mathlib

/-!
Verification of the billing/ledger computation and invoice pagination of the
medford hospital administration console.

The embedding follows `src/app/billing/page.tsx` (ledger calculations,
payment/service/discharge handlers, the invoice paginator `addToPage`),
`src/app/ipdadmin/patient-details/[id]/page.tsx` (the patient-details
outstanding amount), and the daily-performance-report paginator in
`src/unnamed/part_003`.  Amounts and pixel heights are JavaScript numbers in
the source; they are modelled as rationals, which is exact for every
computation the source performs on them (addition, subtraction,
multiplication and division by 100, order comparison).
-/

namespace Medford

/-- The source's `Service.status` is the union type of the two string
literals for pending and completed. -/
inductive ServiceStatus where
  | pending
  | completed
deriving DecidableEq, Repr

/-- The `interface Service` of `src/app/billing/page.tsx`. -/
structure Service where
  serviceName : String
  amount : ℚ
  status : ServiceStatus
deriving DecidableEq, Repr

/-- The `interface Payment` of `src/app/billing/page.tsx`. -/
structure Payment where
  amount : ℚ
  paymentType : String
  date : String
deriving DecidableEq, Repr

/-- The `interface Equipment` of `src/app/billing/page.tsx`. -/
structure Equipment where
  category : String
  equipmentName : String
  price : ℚ
deriving DecidableEq, Repr

/-- The `interface BillingRecord` of `src/app/billing/page.tsx`.  `amount` is the
deposit, incremented on every payment; `totalPaid` is the persisted
completed-services value; optional fields are `Option`. -/
structure BillingRecord where
  id : String
  name : String
  mobileNumber : String
  amount : ℚ
  totalPaid : ℚ
  paymentType : String
  roomType : Option String
  bed : Option String
  services : List Service
  payments : List Payment
  equipment : List Equipment
  dischargeDate : Option String
  discountPercentage : ℚ
deriving DecidableEq, Repr

/-- Source `calculateTotalServicesAmount`: `services.reduce((sum, s) => sum + s.amount, 0)`. -/
def calculateTotalServicesAmount (services : List Service) : ℚ :=
  services.foldl (fun sum s => sum + s.amount) 0

/-- Source `calculateCompletedServicesAmount`:
`services.filter(s => s.status === 'completed').reduce((sum, s) => sum + s.amount, 0)`. -/
def calculateCompletedServicesAmount (services : List Service) : ℚ :=
  (services.filter fun s => s.status = ServiceStatus.completed).foldl
    (fun sum s => sum + s.amount) 0

/-- Source `calculatePendingServicesAmount`:
`services.filter(s => s.status === 'pending').reduce((sum, s) => sum + s.amount, 0)`. -/
def calculatePendingServicesAmount (services : List Service) : ℚ :=
  (services.filter fun s => s.status = ServiceStatus.pending).foldl
    (fun sum s => sum + s.amount) 0

/-- Source `calculateTotalEquipmentAmount`: `equipment.reduce((sum, e) => sum + e.price, 0)`. -/
def calculateTotalEquipmentAmount (equipment : List Equipment) : ℚ :=
  equipment.foldl (fun sum e => sum + e.price) 0

/-- Source `calculateDiscountAmount`: `(total * discountPercentage) / 100`. -/
def calculateDiscountAmount (total discountPercentage : ℚ) : ℚ :=
  total * discountPercentage / 100

/-- Source `calculateAmountAfterDiscount`: `total - discount`. -/
def calculateAmountAfterDiscount (total discount : ℚ) : ℚ :=
  total - discount

/-- A frequently reused fact: folding the running ledger sum from an arbitrary
accumulator shifts the result by that accumulator. -/
theorem foldl_add_map_sum {β : Type} (f : β → ℚ) :
    ∀ (l : List β) (c : ℚ), l.foldl (fun sum x => sum + f x) c = c + (l.map f).sum := by
  intro l
  induction l with
  | nil => intro c; simp
  | cons x xs ih =>
    intro c
    simp only [List.foldl_cons, List.map_cons, List.sum_cons]
    rw [ih]
    ring

/-- The two-valued service status partitions the amount sum. -/
theorem sum_filter_status_split (S : List Service) :
    ((S.filter fun s => s.status = ServiceStatus.completed).map Service.amount).sum
      + ((S.filter fun s => s.status = ServiceStatus.pending).map Service.amount).sum
      = (S.map Service.amount).sum := by
  induction S with
  | nil => simp
  | cons a S ih =>
    cases h : a.status <;>
      simp only [List.filter_cons, h, List.map_cons, List.sum_cons] <;>
      simp <;> linarith

/-- C3: for every service list, the completed-services sum plus the
pending-services sum equals the total services sum, and the total of the
empty list is zero. -/
theorem completed_add_pending_eq_total (S : List Service) :
    calculateCompletedServicesAmount S + calculatePendingServicesAmount S
        = calculateTotalServicesAmount S
      ∧ calculateTotalServicesAmount [] = 0 := by
  constructor
  · rw [calculateCompletedServicesAmount, calculatePendingServicesAmount,
      calculateTotalServicesAmount, foldl_add_map_sum, foldl_add_map_sum,
      foldl_add_map_sum, zero_add, zero_add, zero_add]
    exact sum_filter_status_split S
  · rfl

/-- The services of the worked ledger scenario: one completed service of 500
and one pending service of 300. -/
def scenarioServices : List Service :=
  [⟨"svc1", 500, ServiceStatus.completed⟩, ⟨"svc2", 300, ServiceStatus.pending⟩]

/-- The equipment of the worked ledger scenario: one charge of 200. -/
def scenarioEquipment : List Equipment :=
  [⟨"cat", "equip1", 200⟩]

/-- C9: on services `[{500, completed}, {300, pending}]`, equipment `[{200}]`
and discount percentage 10, the ledger calculator yields total services 800,
total equipment 200, combined 1000, discount 100, amount after discount 900,
completed 500 and pending 300. -/
theorem ledger_scenario :
    calculateTotalServicesAmount scenarioServices = 800
  ∧ calculateTotalEquipmentAmount scenarioEquipment = 200
  ∧ calculateTotalServicesAmount scenarioServices
      + calculateTotalEquipmentAmount scenarioEquipment = 1000
  ∧ calculateDiscountAmount
      (calculateTotalServicesAmount scenarioServices
        + calculateTotalEquipmentAmount scenarioEquipment) 10 = 100
  ∧ calculateAmountAfterDiscount
      (calculateTotalServicesAmount scenarioServices
        + calculateTotalEquipmentAmount scenarioEquipment)
      (calculateDiscountAmount
        (calculateTotalServicesAmount scenarioServices
          + calculateTotalEquipmentAmount scenarioEquipment) 10) = 900
  ∧ calculateCompletedServicesAmount scenarioServices = 500
  ∧ calculatePendingServicesAmount scenarioServices = 300 := by
  norm_num +decide [scenarioServices, scenarioEquipment, calculateTotalServicesAmount,
    calculateTotalEquipmentAmount, calculateDiscountAmount,
    calculateAmountAfterDiscount, calculateCompletedServicesAmount,
    calculatePendingServicesAmount, List.filter]

/-- The payment total of the patient-details screen:
`record.payments.reduce((sum, p) => sum + p.amount, 0)`. -/
def totalPayments (payments : List Payment) : ℚ :=
  payments.foldl (fun sum p => sum + p.amount) 0

/-- The remaining-balance line of the IPD billing invoice screen
(`InvoiceContent`): `amountAfterDiscount + selectedRecord.amount - totalPaid`,
with every derived value computed the way the screen derives it. -/
def invoiceRemainingBalance (r : BillingRecord) : ℚ :=
  let totalServicesAmount := calculateTotalServicesAmount r.services
  let totalEquipmentAmount := calculateTotalEquipmentAmount r.equipment
  let discountAmount :=
    calculateDiscountAmount (totalServicesAmount + totalEquipmentAmount) r.discountPercentage
  let amountAfterDiscount :=
    calculateAmountAfterDiscount (totalServicesAmount + totalEquipmentAmount) discountAmount
  amountAfterDiscount + r.amount - r.totalPaid

/-- The outstanding-amount line of the patient-details screen
(`PatientPaymentDetails`): `record.amount - totalPayments`. -/
def patientDetailsOutstanding (r : BillingRecord) : ℚ :=
  r.amount - totalPayments r.payments

/-- The first outstanding formula as the spec words it: amount after discount
plus deposit minus the completed-services sum. -/
def specOutstandingInvoice (r : BillingRecord) : ℚ :=
  let total := calculateTotalServicesAmount r.services + calculateTotalEquipmentAmount r.equipment
  let discount := total * r.discountPercentage / 100
  (total - discount) + r.amount - calculateCompletedServicesAmount r.services

/-- The second outstanding formula as the spec words it: deposit minus the sum
of all payment amounts. -/
def specOutstandingDetails (r : BillingRecord) : ℚ :=
  r.amount - (r.payments.map Payment.amount).sum

/-- A record holding a single pending service of 500 and nothing else: the two
outstanding formulas disagree on it. -/
def pendingOnlyRecord : BillingRecord where
  id := "r0"
  name := "p"
  mobileNumber := "00"
  amount := 0
  totalPaid := 0
  paymentType := "deposit"
  roomType := none
  bed := none
  services := [⟨"svc", 500, ServiceStatus.pending⟩]
  payments := []
  equipment := []
  dischargeDate := none
  discountPercentage := 0

/-- C1: on every record whose persisted `totalPaid` is the completed-services
sum (the invariant both screens establish when loading), the billing invoice
screen renders amountAfterDiscount + deposit − completed-services sum while
the patient-details screen renders deposit − sum of payments, and the two
values need not be equal. -/
theorem two_outstanding_formulas (r : BillingRecord)
    (h : r.totalPaid = calculateCompletedServicesAmount r.services) :
    invoiceRemainingBalance r = specOutstandingInvoice r
  ∧ patientDetailsOutstanding r = specOutstandingDetails r
  ∧ ∃ r0 : BillingRecord,
      r0.totalPaid = calculateCompletedServicesAmount r0.services
      ∧ invoiceRemainingBalance r0 ≠ patientDetailsOutstanding r0 := by
  refine ⟨?_, ?_, pendingOnlyRecord, ?_, ?_⟩
  · simp only [invoiceRemainingBalance, specOutstandingInvoice,
      calculateDiscountAmount, calculateAmountAfterDiscount, h]
  · simp only [patientDetailsOutstanding, specOutstandingDetails, totalPayments,
      foldl_add_map_sum, zero_add]
  · norm_num +decide [pendingOnlyRecord, calculateCompletedServicesAmount, List.filter]
  · norm_num +decide [pendingOnlyRecord, invoiceRemainingBalance, patientDetailsOutstanding,
      calculateTotalServicesAmount, calculateTotalEquipmentAmount, calculateDiscountAmount,
      calculateAmountAfterDiscount, totalPayments]

/-- Witness for C1 at the single-pending-service record. -/
theorem two_outstanding_formulas_witness :
    pendingOnlyRecord.totalPaid = calculateCompletedServicesAmount pendingOnlyRecord.services
  ∧ (invoiceRemainingBalance pendingOnlyRecord = specOutstandingInvoice pendingOnlyRecord
      ∧ patientDetailsOutstanding pendingOnlyRecord = specOutstandingDetails pendingOnlyRecord
      ∧ ∃ r0 : BillingRecord,
          r0.totalPaid = calculateCompletedServicesAmount r0.services
          ∧ invoiceRemainingBalance r0 ≠ patientDetailsOutstanding r0) := by
  have h : pendingOnlyRecord.totalPaid
      = calculateCompletedServicesAmount pendingOnlyRecord.services := by
    norm_num +decide [pendingOnlyRecord, calculateCompletedServicesAmount, List.filter]
  exact ⟨h, two_outstanding_formulas pendingOnlyRecord h⟩

/-- The paginator's mutable state in `InvoiceContent` (and in the daily
performance report of `src/unnamed/part_003`): the closed pages
(`contentPerPage`), the page being filled (`currentPage`) and its running
height (`currentHeight`).  A block is kept together with the caller-supplied
height estimate. -/
structure PagState (α : Type) where
  pages : List (List (α × ℚ))
  currentPage : List (α × ℚ)
  currentHeight : ℚ

/-- Source `addToPage(element, height)`: when the running height would exceed the
usable height, the current page is closed — with no check that it is
non-empty — and the block then joins the fresh page. -/
def addToPage {α : Type} (usableHeight : ℚ) (s : PagState α) (block : α × ℚ) : PagState α :=
  if s.currentHeight + block.2 > usableHeight then
    { pages := s.pages ++ [s.currentPage], currentPage := [block], currentHeight := block.2 }
  else
    { s with currentPage := s.currentPage ++ [block],
             currentHeight := s.currentHeight + block.2 }

/-- The whole pagination pass: feed every block to `addToPage` in input order,
then close the final page when it is non-empty
(`if (currentPage.length > 0) { contentPerPage.push(...) }`). -/
def paginate {α : Type} (usableHeight : ℚ) (blocks : List (α × ℚ)) : List (List (α × ℚ)) :=
  let final := blocks.foldl (addToPage usableHeight) ⟨[], [], 0⟩
  if final.currentPage.length > 0 then final.pages ++ [final.currentPage] else final.pages

/-- The summed height estimates of one produced page. -/
def blocksHeight {α : Type} (page : List (α × ℚ)) : ℚ :=
  (page.map Prod.snd).sum

/-- Folding `addToPage` never loses, duplicates or reorders a block: closed
pages plus the open page always hold the starting content followed by the
blocks consumed so far. -/
theorem foldl_addToPage_flatten {α : Type} (u : ℚ) :
    ∀ (bs : List (α × ℚ)) (s : PagState α),
      ((bs.foldl (addToPage u) s).pages.flatten ++ (bs.foldl (addToPage u) s).currentPage)
        = s.pages.flatten ++ s.currentPage ++ bs := by
  intro bs
  induction bs with
  | nil => intro s; simp
  | cons b bs ih =>
    intro s
    simp only [List.foldl_cons]
    rw [ih]
    by_cases hcond : s.currentHeight + b.2 > u <;>
      simp [addToPage, hcond]

/-- C4: flattening the produced pages in order reproduces the input block
sequence exactly — nothing dropped, duplicated, reordered or split. -/
theorem paginate_flatten (α : Type) (u : ℚ) (blocks : List (α × ℚ)) :
    (paginate u blocks).flatten = blocks := by
  have h := foldl_addToPage_flatten u blocks ⟨[], [], 0⟩
  simp only [List.flatten_nil, List.nil_append] at h
  unfold paginate
  by_cases hc : (blocks.foldl (addToPage u) ⟨[], [], 0⟩).currentPage.length > 0
  · simp only [hc, if_pos, List.flatten_append, List.flatten_cons, List.flatten_nil,
      List.append_nil]
    exact h
  · have hemp : (blocks.foldl (addToPage u) ⟨[], [], 0⟩).currentPage = [] := by
      simpa using hc
    simp only [hc, if_neg, not_false_iff]
    rw [hemp, List.append_nil] at h
    simpa [hc] using h

/-- The invariant the paginator maintains: the running height is the open
page's summed height, the open page fits or is a lone block, and every closed
page fits or is a lone oversized block. -/
def PagInv {α : Type} (u : ℚ) (s : PagState α) : Prop :=
  s.currentHeight = blocksHeight s.currentPage
  ∧ (blocksHeight s.currentPage ≤ u ∨ ∃ b, s.currentPage = [b])
  ∧ ∀ p ∈ s.pages, blocksHeight p ≤ u ∨ ∃ b, p = [b] ∧ u < b.2

/-- One `addToPage` step preserves the paginator invariant when the usable
height is non-negative. -/
theorem addToPage_inv {α : Type} {u : ℚ} (s : PagState α) (b : α × ℚ)
    (hs : PagInv u s) : PagInv u (addToPage u s b) := by
  obtain ⟨hh, hcur, hpages⟩ := hs
  by_cases hcond : s.currentHeight + b.2 > u
  · rw [PagInv, addToPage, if_pos hcond]
    refine ⟨by simp [blocksHeight], Or.inr ⟨b, rfl⟩, ?_⟩
    intro p hp
    rcases List.mem_append.mp hp with hp | hp
    · exact hpages p hp
    · rw [List.mem_singleton] at hp
      subst hp
      rcases hcur with hfit | ⟨b0, hb0⟩
      · exact Or.inl hfit
      · by_cases hb0fit : blocksHeight s.currentPage ≤ u
        · exact Or.inl hb0fit
        · refine Or.inr ⟨b0, hb0, ?_⟩
          rw [hb0] at hb0fit
          simp only [blocksHeight, List.map_cons, List.map_nil, List.sum_cons,
            List.sum_nil, add_zero] at hb0fit
          linarith
  · rw [PagInv, addToPage, if_neg hcond]
    have hle : s.currentHeight + b.2 ≤ u := le_of_not_lt hcond
    rw [hh] at hle
    refine ⟨?_, Or.inl ?_, hpages⟩
    · simp [blocksHeight, hh]
    · simp only [blocksHeight, List.map_append, List.map_cons, List.map_nil,
        List.sum_append, List.sum_cons, List.sum_nil, add_zero]
      simpa [blocksHeight] using hle

/-- The paginator invariant carried over a whole fold. -/
theorem foldl_addToPage_inv {α : Type} {u : ℚ} :
    ∀ (bs : List (α × ℚ)) (s : PagState α), PagInv u s →
      PagInv u (bs.foldl (addToPage u) s) := by
  intro bs
  induction bs with
  | nil => intro s hs; exact hs
  | cons b bs ih =>
    intro s hs
    exact ih (addToPage u s b) (addToPage_inv s b hs)

/-- C5: with a non-negative usable height, every produced page fits in the
usable height except pages made of one lone oversized block. -/
theorem paginate_capacity (α : Type) (u : ℚ) (hu : 0 ≤ u) (blocks : List (α × ℚ)) :
    ∀ page ∈ paginate u blocks,
      blocksHeight page ≤ u ∨ ∃ b, page = [b] ∧ u < b.2 := by
  have hinv : PagInv u (blocks.foldl (addToPage u) ⟨[], [], 0⟩) := by
    refine foldl_addToPage_inv blocks _ ⟨?_, ?_, ?_⟩
    · simp [blocksHeight]
    · left; simpa [blocksHeight] using hu
    · intro p hp; simp at hp
  obtain ⟨hh, hcur, hpages⟩ := hinv
  intro page hpage
  unfold paginate at hpage
  by_cases hc : (blocks.foldl (addToPage u) ⟨[], [], 0⟩).currentPage.length > 0
  · simp only [hc, if_pos, List.mem_append, List.mem_singleton] at hpage
    rcases hpage with hpage | hpage
    · exact hpages page hpage
    · subst hpage
      rcases hcur with hfit | ⟨b0, hb0⟩
      · exact Or.inl hfit
      · by_cases hb0fit : blocksHeight (blocks.foldl (addToPage u) ⟨[], [], 0⟩).currentPage ≤ u
        · exact Or.inl hb0fit
        · refine Or.inr ⟨b0, hb0, ?_⟩
          rw [hb0] at hb0fit
          simp only [blocksHeight, List.map_cons, List.map_nil, List.sum_cons,
            List.sum_nil, add_zero] at hb0fit
          linarith
  · simp only [hc, if_neg, not_false_iff] at hpage
    exact hpages page hpage

/-- Witness for C5 at usable height 500 and the four-block input. -/
theorem paginate_capacity_witness :
    (0:ℚ) ≤ 500
  ∧ ∀ page ∈ paginate (500:ℚ) [((0:ℕ), (40:ℚ)), (1, 120), (2, 400), (3, 300)],
      blocksHeight page ≤ 500 ∨ ∃ b, page = [b] ∧ (500:ℚ) < b.2 :=
  ⟨by norm_num,
   paginate_capacity ℕ 500 (by norm_num) [((0:ℕ), (40:ℚ)), (1, 120), (2, 400), (3, 300)]⟩

/-- C6: heights 40, 120, 400, 300 at usable height 500 produce exactly the
three pages with blocks 40 and 120, then 400 alone, then 300 alone. -/
theorem paginate_scenario :
    paginate (500:ℚ) [((0:ℕ), (40:ℚ)), (1, 120), (2, 400), (3, 300)]
      = [[(0, 40), (1, 120)], [(2, 400)], [(3, 300)]] := by
  norm_num [paginate, addToPage]

/-- C2 counterexample: one block of height 900 at usable height 500 yields two
pages — an empty page followed by the block — not one page. -/
theorem single_oversized_counterexample :
    paginate (500:ℚ) [((0:ℕ), (900:ℚ))] = [[], [((0:ℕ), (900:ℚ))]]
    ∧ (paginate (500:ℚ) [((0:ℕ), (900:ℚ))]).length ≠ 1 := by
  constructor
  · norm_num [paginate, addToPage]
  · norm_num [paginate, addToPage]

/-- C2 (amended): a single block taller than the usable height is never split
and ends up alone on a page with its overflow accepted, but because the page
close in `addToPage` does not check that the current page is non-empty, the
paginator emits an empty page in front of it: one oversized block yields two
pages, the first empty. -/
theorem single_oversized_two_pages {α : Type} (b : α) (h u : ℚ) (hb : u < h) :
    paginate u [(b, h)] = [[], [(b, h)]] := by
  have hcond : ((⟨[], [], 0⟩ : PagState α).currentHeight + (b, h).2 > u) := by
    simpa using hb
  unfold paginate
  simp only [List.foldl_cons, List.foldl_nil, addToPage, hcond, if_pos]
  simp

/-- Witness for the amended C2 at height 900 and usable height 500. -/
theorem single_oversized_two_pages_witness :
    (500:ℚ) < 900
  ∧ paginate (500:ℚ) [((0:ℕ), (900:ℚ))] = [[], [((0:ℕ), (900:ℚ))]] :=
  ⟨by norm_num, single_oversized_two_pages (0:ℕ) 900 500 (by norm_num)⟩

/-- Source `handleMarkServiceCompleted(index)` restricted to its record transform:
unchanged when the index misses the service list or the service there is
already completed; otherwise the service's status becomes completed and the
persisted `totalPaid` is recomputed as the completed-services sum. -/
def markServiceCompleted (r : BillingRecord) (index : ℕ) : BillingRecord :=
  match r.services[index]? with
  | none => r
  | some s =>
    if s.status = ServiceStatus.completed then r
    else
      let updatedServices := r.services.set index { s with status := ServiceStatus.completed }
      { r with services := updatedServices,
               totalPaid := calculateCompletedServicesAmount updatedServices }

/-- C7: marking a service completed is idempotent — a second application at
the same index changes nothing — and an out-of-range index or an already
completed service makes it a no-op, not an error. -/
theorem markServiceCompleted_idempotent (r : BillingRecord) (index : ℕ) :
    markServiceCompleted (markServiceCompleted r index) index = markServiceCompleted r index
  ∧ (r.services[index]? = none → markServiceCompleted r index = r)
  ∧ (∀ s, r.services[index]? = some s → s.status = ServiceStatus.completed →
      markServiceCompleted r index = r) := by
  refine ⟨?_, ?_, ?_⟩
  · cases hidx : r.services[index]? with
    | none => simp [markServiceCompleted, hidx]
    | some s =>
      by_cases hstat : s.status = ServiceStatus.completed
      · simp [markServiceCompleted, hidx, hstat]
      · have hlt : index < r.services.length := by
          have := List.getElem?_eq_some.mp hidx
          exact this.1
        have h2 : (r.services.set index
            { s with status := ServiceStatus.completed })[index]?
            = some { s with status := ServiceStatus.completed } :=
          List.getElem?_set_self (by simpa using hlt)
        simp [markServiceCompleted, hidx, hstat, h2]
  · intro h
    simp [markServiceCompleted, h]
  · intro s hs hstat
    simp [markServiceCompleted, hs, hstat]

/-- Witness for C7 on the single-pending-service record. -/
theorem markServiceCompleted_idempotent_witness :
    markServiceCompleted (markServiceCompleted pendingOnlyRecord 0) 0
        = markServiceCompleted pendingOnlyRecord 0
  ∧ pendingOnlyRecord.services[1]? = none
  ∧ markServiceCompleted pendingOnlyRecord 1 = pendingOnlyRecord :=
  ⟨(markServiceCompleted_idempotent pendingOnlyRecord 0).1,
   by simp [pendingOnlyRecord],
   (markServiceCompleted_idempotent pendingOnlyRecord 1).2.1 (by simp [pendingOnlyRecord])⟩

/-- Source `onSubmitPayment` restricted to its record transform: the new payment goes
to the front of the payment list (`[newPayment, ...payments]`) and the deposit
becomes the old deposit plus the payment amount. -/
def applyPayment (r : BillingRecord) (paymentAmount : ℚ) (paymentType date : String) :
    BillingRecord :=
  { r with payments := ⟨paymentAmount, paymentType, date⟩ :: r.payments,
           amount := r.amount + paymentAmount }

/-- A sequence of payment submissions applied in order. -/
def applyPayments (r : BillingRecord) (ps : List Payment) : BillingRecord :=
  ps.foldl (fun acc p => applyPayment acc p.amount p.paymentType p.date) r

/-- C8: applying N payments with positive amounts adds their sum to the
deposit and grows the payment list by exactly N. -/
theorem applyPayment_additive (r : BillingRecord) (ps : List Payment)
    (hpos : ∀ p ∈ ps, 0 < p.amount) :
    (applyPayments r ps).amount = r.amount + (ps.map Payment.amount).sum
  ∧ (applyPayments r ps).payments.length = r.payments.length + ps.length := by
  induction ps generalizing r with
  | nil => simp [applyPayments]
  | cons p ps ih =>
    have hpos' : ∀ q ∈ ps, 0 < q.amount := fun q hq => hpos q (List.mem_cons_of_mem p hq)
    obtain ⟨ha, hl⟩ := ih (applyPayment r p.amount p.paymentType p.date) hpos'
    constructor
    · rw [applyPayments, List.foldl_cons] at *
      rw [ha]
      simp [applyPayment]
      ring
    · rw [applyPayments, List.foldl_cons] at *
      rw [hl]
      simp [applyPayment]
      omega

/-- Witness for C8: two payments of 100 and 50 on the sample record. -/
theorem applyPayment_additive_witness :
    (∀ p ∈ [(⟨100, "cash", "d1"⟩ : Payment), ⟨50, "online", "d2"⟩], 0 < p.amount)
  ∧ ((applyPayments pendingOnlyRecord
        [(⟨100, "cash", "d1"⟩ : Payment), ⟨50, "online", "d2"⟩]).amount
      = pendingOnlyRecord.amount
        + (([(⟨100, "cash", "d1"⟩ : Payment), ⟨50, "online", "d2"⟩].map Payment.amount).sum)
    ∧ (applyPayments pendingOnlyRecord
        [(⟨100, "cash", "d1"⟩ : Payment), ⟨50, "online", "d2"⟩]).payments.length
      = pendingOnlyRecord.payments.length + 2) := by
  have hpos : ∀ p ∈ [(⟨100, "cash", "d1"⟩ : Payment), ⟨50, "online", "d2"⟩], 0 < p.amount := by
    intro p hp
    rcases List.mem_cons.mp hp with h | hp
    · rw [h]; norm_num
    · rcases List.mem_cons.mp hp with h | hp
      · rw [h]; norm_num
      · simp at hp
  exact ⟨hpos, applyPayment_additive pendingOnlyRecord _ hpos⟩

/-- One write to the external bed inventory:
`update(ref(db, beds/roomType/bed), { status })`. -/
structure BedWrite where
  roomType : String
  bed : String
  status : String
deriving DecidableEq, Repr

/-- JavaScript truthiness of an optional string field: an absent field and the
empty string are both falsy. -/
def truthyStr (s : Option String) : Bool :=
  match s with
  | none => false
  | some str => str ≠ ""

/-- Source `handleDischarge` restricted to its state transform: reject — returning
the record unchanged and issuing no bed write — when the room type or the bed
field is falsy, otherwise set the discharge date and issue one write marking
the bed available. -/
def handleDischarge (r : BillingRecord) (dischargeDate : String) :
    BillingRecord × List BedWrite :=
  if !truthyStr r.roomType || !truthyStr r.bed then (r, [])
  else ({ r with dischargeDate := some dischargeDate },
        [⟨r.roomType.getD "", r.bed.getD "", "Available"⟩])

/-- C10: a missing room type or bed makes discharge reject with every piece of
state unchanged and no bed write issued; a discharge that changes anything
implies both fields were present; with both fields present (and non-empty) the
discharge date is set and the one bed write marks the bed available. -/
theorem handleDischarge_guard (r : BillingRecord) (d : String) :
    ((r.roomType = none ∨ r.bed = none) → handleDischarge r d = (r, []))
  ∧ ((handleDischarge r d).1.dischargeDate ≠ r.dischargeDate ∨ (handleDischarge r d).2 ≠ [] →
      r.roomType ≠ none ∧ r.bed ≠ none)
  ∧ (∀ rt bd, r.roomType = some rt → r.bed = some bd → rt ≠ "" → bd ≠ "" →
      handleDischarge r d
        = ({ r with dischargeDate := some d }, [⟨rt, bd, "Available"⟩])) := by
  have hreject : (r.roomType = none ∨ r.bed = none) → handleDischarge r d = (r, []) := by
    intro h
    rcases h with h | h <;> simp [handleDischarge, truthyStr, h]
  refine ⟨hreject, ?_, ?_⟩
  · intro hch
    constructor
    · intro hn
      rw [hreject (Or.inl hn)] at hch
      simp at hch
    · intro hn
      rw [hreject (Or.inr hn)] at hch
      simp at hch
  · intro rt bd hrt hbd hrtne hbdne
    simp [handleDischarge, truthyStr, hrt, hbd, hrtne, hbdne]

/-- A record with a room type and a bed assigned, ready for discharge. -/
def beddedRecord : BillingRecord where
  id := "r1"
  name := "q"
  mobileNumber := "01"
  amount := 0
  totalPaid := 0
  paymentType := "deposit"
  roomType := some "deluxe"
  bed := some "b1"
  services := []
  payments := []
  equipment := []
  dischargeDate := none
  discountPercentage := 0

/-- Witness for C10: the record without a bed is rejected unchanged; the
bedded record gets its discharge date and one available-bed write. -/
theorem handleDischarge_guard_witness :
    handleDischarge pendingOnlyRecord "2026-01-01" = (pendingOnlyRecord, [])
  ∧ handleDischarge beddedRecord "2026-01-01"
      = ({ beddedRecord with dischargeDate := some "2026-01-01" },
         [⟨"deluxe", "b1", "Available"⟩]) :=
  ⟨(handleDischarge_guard pendingOnlyRecord "2026-01-01").1 (Or.inl rfl),
   (handleDischarge_guard beddedRecord "2026-01-01").2.2 "deluxe" "b1" rfl rfl
     (by decide) (by decide)⟩

end Medford
